import Mathlib

/-!
Shallow embedding of `cpp/serve/engine_actions/action_commons.cc` (mlc-llm
request-lifecycle core).  Engine bookkeeping (queues, request-state trees,
model states) is modelled as explicit functional state; calls into the
external collaborators (per-model sequence storage, prefix cache, sequence-id
allocator, draft-token workspace manager) are recorded as an `Effect` trace,
since their internals are outside this translation unit.
-/

namespace MlcServe

/-- Status of a request state entry (`RequestStateStatus` in `request_state.h`). -/
inductive RequestStateStatus where
  | kPending
  | kAlive
  | kFinished
deriving DecidableEq, Repr, Inhabited

/-- One input data chunk (`Data` in `data.h`): a `TokenData` chunk carries token
ids; every other chunk kind (text, image, embeddings) is opaque to
`action_commons.cc`, which only queries its length, so it is modelled by its
length alone. -/
inductive Data where
  | tokenData (token_ids : List Int)
  | otherData (len : Nat)
deriving DecidableEq, Repr, Inhabited

/-- `Data::GetLength()`: number of tokens of the chunk. -/
def Data.GetLength : Data → Nat
  | .tokenData ts => ts.length
  | .otherData len => len

structure DebugConfig where
  pinned_system_prompt : Bool
deriving DecidableEq, Repr, Inhabited

/-- The fields of `GenerationConfig` read by `action_commons.cc`. -/
structure GenerationConfig where
  n : Nat
  logprobs : Nat
  debug_config : DebugConfig
deriving DecidableEq, Repr, Inhabited

/-- The fields of `Request` read by `action_commons.cc`. -/
structure Request where
  id : String
  inputs : List Data
  generation_cfg : GenerationConfig
deriving DecidableEq, Repr, Inhabited

/-- `RequestModelState`: per-(branch, model) mutable state.  `committed_tokens`
keeps only the sampled token id of each `SampleResult` (`GetTokenId()`), which
is all this translation unit reads from it. -/
structure RequestModelState where
  internal_id : Int
  inputs : List Data
  prefilled_inputs : List Data
  committed_tokens : List Int
  cached_committed_tokens : Int
  num_prefilled_tokens : Nat
  draft_token_slots : List Nat
deriving DecidableEq, Repr, Inhabited

/-- One node of a request's tree of branches (`RequestStateEntry`). -/
structure RequestStateEntry where
  status : RequestStateStatus
  parent_idx : Int
  child_indices : List Nat
  request : Request
  mstates : List RequestModelState
deriving DecidableEq, Repr, Inhabited

/-- `mstates[0]`, the canonical (first-model) state.  `mstates` is never empty
in the engine; on the impossible empty list the default value is returned. -/
def RequestStateEntry.mstate0 (e : RequestStateEntry) : RequestModelState :=
  e.mstates.headI

/-- The per-request metrics fields touched by `action_commons.cc`. -/
structure RequestMetrics where
  prefill_tokens : Nat
  finish_time_point : Option Int
deriving DecidableEq, Repr, Inhabited

/-- Per-request mutable state (`RequestState`): the ordered entry tree and the
request-level metrics. -/
structure RequestState where
  entries : List RequestStateEntry
  metrics : RequestMetrics
deriving DecidableEq, Repr, Inhabited

/-- A call into an external collaborator, recorded in order of occurrence:
`Model::RemoveSequence`, `PrefixCache::RecycleSequence` (with its lazy flag),
`EngineState::id_manager.RecycleId`, `PrefixCache::ExtendSequence`, and
`DraftTokenWorkspaceManager::FreeSlots`. -/
inductive Effect where
  | removeSequence (model_idx : Nat) (seq_id : Int)
  | recycleSequence (seq_id : Int) (lazy : Bool)
  | recycleId (seq_id : Int)
  | extendSequence (seq_id : Int) (token_ids : List Int)
  | freeSlots (slots : List Nat)
deriving DecidableEq, Repr

/-- An element of the outgoing `callback_delta_outputs` batch: either a
per-branch delta event or the terminal usage event (whose JSON payload is
modelled by the metrics record it serializes). -/
inductive RequestStreamOutput where
  | delta (request_id : String) (group_delta_token_ids : List (List Int))
      (group_delta_logprob_json_strs : Option (List (List String)))
      (group_finish_reason : List (Option String))
      (group_extra_prefix_string : List String)
  | usage (request_id : String) (metrics : RequestMetrics)
deriving DecidableEq, Repr

/-- The fields of `EngineState` touched by `action_commons.cc`.
`prefix_cache_resident` is the read-only view backing
`PrefixCache::HasSequence`; `id_manager_next_id` models the sequence-id
allocator's `GetNewId` as a fresh counter; aggregate engine metrics are the
list of per-request metrics folded in by `RequestFinishUpdate`. -/
structure EngineState where
  running_queue : List Request
  waiting_queue : List Request
  request_states : List (String × RequestState)
  prefix_cache_resident : List Int
  id_manager_next_id : Int
  metrics : List RequestMetrics
  running_rsentries_changed : Bool
deriving DecidableEq, Repr, Inhabited

/-- `EngineState::GetRequestState`: look the request state up by request id. -/
def EngineState.GetRequestState (estate : EngineState) (req : Request) :
    Option RequestState :=
  (estate.request_states.find? (fun p => p.1 == req.id)).map (fun p => p.2)

/-- Write a request's state back into the map (in C++ the `RequestState` is a
shared object mutated in place). -/
def EngineState.SetRequestState (estate : EngineState) (id : String)
    (rs : RequestState) : EngineState :=
  { estate with request_states :=
      estate.request_states.map (fun p => if p.1 == id then (p.1, rs) else p) }

/-- `estate->request_states.erase(id)`. -/
def EngineState.EraseRequestState (estate : EngineState) (id : String) :
    EngineState :=
  { estate with request_states :=
      estate.request_states.filter (fun p => p.1 != id) }

/-- `RemoveRequestFromModel`: remove the sequence from every model (the KV
cache); models are identified by their index in the `models` array. -/
def RemoveRequestFromModel (req_internal_id : Int) (num_models : Nat) :
    List Effect :=
  (List.range num_models).map (fun m => Effect.removeSequence m req_internal_id)

/-- `RemoveRequestStateEntry`: if the sequence is resident in the prefix cache,
recycle it lazily there unless the request is pinned (pinned: do nothing over
prefix cache and KV cache); otherwise remove it from every model directly and
recycle its id via the allocator.  The engine-state fields modelled here are
untouched; the external calls are returned as the effect trace. -/
def RemoveRequestStateEntry (estate : EngineState) (num_models : Nat)
    (rsentry : RequestStateEntry) : List Effect :=
  if rsentry.mstate0.internal_id ∈ estate.prefix_cache_resident then
    if !rsentry.request.generation_cfg.debug_config.pinned_system_prompt then
      [Effect.recycleSequence rsentry.mstate0.internal_id true]
    else
      []
  else
    RemoveRequestFromModel rsentry.mstate0.internal_id num_models ++
      [Effect.recycleId rsentry.mstate0.internal_id]

/-- The check of the climb loop in `ProcessFinishedRequestStateEntries`:
every child of `e` has status `kFinished`.  (An out-of-range child index
never occurs; it is treated as a non-finished child.) -/
def allChildrenFinished (entries : List RequestStateEntry)
    (e : RequestStateEntry) : Bool :=
  e.child_indices.all (fun c =>
    match entries[c]? with
    | some ce => ce.status == RequestStateStatus.kFinished
    | none => false)

/-- The `while (parent_idx != -1)` climb of
`ProcessFinishedRequestStateEntries`: while the current parent exists and all
its children are finished, mark it finished, emit its removal effects, and
climb to its own parent.  Returns the updated entries, the final value of
`parent_idx`, and the effect trace.  The fuel argument bounds the walk; in a
well-formed tree parent indices strictly decrease, so `entries.length` fuel is
always enough, and exhausted fuel merely stops the walk where C++ would keep
looping on a malformed cyclic tree. -/
def ClimbFinished (estate : EngineState) (num_models : Nat) :
    Nat → List RequestStateEntry → Int →
      List RequestStateEntry × Int × List Effect
  | 0, entries, parent_idx => (entries, parent_idx, [])
  | fuel + 1, entries, parent_idx =>
    if parent_idx < 0 then (entries, parent_idx, [])
    else
      match entries[parent_idx.toNat]? with
      | none => (entries, parent_idx, [])
      | some pe =>
        if !allChildrenFinished entries pe then (entries, parent_idx, [])
        else
          let pe1 := { pe with status := RequestStateStatus.kFinished }
          let entries1 := entries.set parent_idx.toNat pe1
          let effs := RemoveRequestStateEntry estate num_models pe1
          let rec_result := ClimbFinished estate num_models fuel entries1 pe.parent_idx
          (rec_result.1, rec_result.2.1, effs ++ rec_result.2.2)

/-- The body of the `for (rsentry : finished_rsentries)` loop of
`ProcessFinishedRequestStateEntries`, for one finished entry identified by its
request and its index in the request's entry list (in C++ the entry is passed
by shared pointer; index addressing models the aliasing).  `none` models a
fatal `ICHECK` failure.  Returns updated engine state, effect trace, and any
usage output appended to `callback_delta_outputs`. -/
def ProcessFinishedOne (num_models : Nat) (now : Int) (estate : EngineState)
    (req : Request) (leaf_idx : Nat) :
    Option (EngineState × List Effect × List RequestStreamOutput) := do
  let rstate ← estate.GetRequestState req
  let rsentry ← rstate.entries[leaf_idx]?
  -- ICHECK(rsentry->child_indices.empty()): the finished entry must be a leaf.
  if !rsentry.child_indices.isEmpty then none
  else
    let rsentry1 := { rsentry with status := RequestStateStatus.kFinished }
    let entries0 := rstate.entries.set leaf_idx rsentry1
    let effs0 := RemoveRequestStateEntry estate num_models rsentry1
    let climbed :=
      ClimbFinished estate num_models entries0.length entries0 rsentry1.parent_idx
    let rstate1 := { rstate with entries := climbed.1 }
    let estate1 := estate.SetRequestState req.id rstate1
    if climbed.2.1 == -1 then
      -- ICHECK(it != estate->running_queue.end())
      if !(estate1.running_queue.contains req) then none
      else
        let estate2 :=
          { estate1.EraseRequestState req.id with
              running_queue := estate1.running_queue.erase req }
        let finished_metrics :=
          { rstate1.metrics with finish_time_point := some now }
        let root_rsentry := climbed.1.headI
        let estate3 :=
          { estate2 with
              metrics := estate2.metrics ++ [finished_metrics],
              running_rsentries_changed := true }
        some (estate3, effs0 ++ climbed.2.2,
          [RequestStreamOutput.usage root_rsentry.request.id finished_metrics])
    else
      some ({ estate1 with running_rsentries_changed := true },
        effs0 ++ climbed.2.2, [])

/-- `ProcessFinishedRequestStateEntries`: process each newly-finished leaf in
order, accumulating state updates, effects and usage outputs. -/
def ProcessFinishedRequestStateEntries (num_models : Nat) (now : Int) :
    EngineState → List (Request × Nat) →
      Option (EngineState × List Effect × List RequestStreamOutput)
  | estate, [] => some (estate, [], [])
  | estate, pr :: rest => do
    let s ← ProcessFinishedOne num_models now estate pr.1 pr.2
    let r ← ProcessFinishedRequestStateEntries num_models now s.1 rest
    some (r.1, s.2.1 ++ r.2.1, s.2.2 ++ r.2.2)

/-- The children-before-parent invariant of the request-state tree: every
Finished entry has all of its children Finished. -/
def finishedInv (entries : List RequestStateEntry) : Bool :=
  entries.all (fun e =>
    !(e.status == RequestStateStatus.kFinished) || allChildrenFinished entries e)

/-- The invariant over every request state held by the engine. -/
def engineFinishedInv (estate : EngineState) : Bool :=
  estate.request_states.all (fun p => finishedInv p.2.entries)

/-- The token-flattening loop of `UpdatePrefixCache`: collect the token ids of
the token-typed chunks, in order; non-token chunks are skipped (`token_data ==
nullptr → continue`). -/
def TokenIdsOfData (ds : List Data) : List Int :=
  ds.flatMap (fun d =>
    match d with
    | Data.tokenData ts => ts
    | Data.otherData _ => [])

/-- The per-entry body of `UpdatePrefixCache`, acting on the entry's canonical
model state `mstates[0]`: (a) if `prefilled_inputs` is non-empty, extend the
prefix cache with its token-typed contents and clear it; (b) if the
committed-token watermark is behind `committed_tokens.size() - 1`, extend the
cache with the committed token ids from the watermark up to but excluding the
last committed token (`for (i = cached; i < size - 1; ++i)`), then advance the
watermark to `size - 1`. -/
def UpdatePrefixCacheMState (m : RequestModelState) :
    RequestModelState × List Effect :=
  let step1 :=
    if !m.prefilled_inputs.isEmpty then
      (({ m with prefilled_inputs := [] } : RequestModelState),
        [Effect.extendSequence m.internal_id (TokenIdsOfData m.prefilled_inputs)])
    else (m, ([] : List Effect))
  let m1 := step1.1
  let sz : Int := (m1.committed_tokens.length : Int)
  if m1.cached_committed_tokens < sz - 1 then
    let start := m1.cached_committed_tokens.toNat
    let count := (sz - 1 - m1.cached_committed_tokens).toNat
    let toks := (List.range count).map (fun k => m1.committed_tokens.getD (start + k) 0)
    ({ m1 with cached_committed_tokens := sz - 1 },
      step1.2 ++ [Effect.extendSequence m1.internal_id toks])
  else (m1, step1.2)

/-- `UpdatePrefixCache` on one entry: the loop body touches only `mstates[0]`. -/
def UpdatePrefixCacheEntry (e : RequestStateEntry) :
    RequestStateEntry × List Effect :=
  match e.mstates with
  | [] => (e, [])
  | m :: rest =>
    let stepped := UpdatePrefixCacheMState m
    ({ e with mstates := stepped.1 :: rest }, stepped.2)

/-- `UpdatePrefixCache` on one request state: the loop updates each entry in
order and emits their cache-extension effects in order. -/
def UpdatePrefixCacheRState (rs : RequestState) : RequestState × List Effect :=
  ({ rs with entries := rs.entries.map (fun e => (UpdatePrefixCacheEntry e).1) },
    rs.entries.flatMap (fun e => (UpdatePrefixCacheEntry e).2))

/-- `UpdatePrefixCache` over the request states fetched by
`ActionStepPostProcess` (addressed here by request, since the C++ `rstates`
vector aliases the states held in `estate->request_states`). -/
def UpdatePrefixCache : List Request → EngineState →
    Option (EngineState × List Effect)
  | [], estate => some (estate, [])
  | req :: rest, estate => do
    let rstate ← estate.GetRequestState req
    let stepped := UpdatePrefixCacheRState rstate
    let r ← UpdatePrefixCache rest (estate.SetRequestState req.id stepped.1)
    some (r.1, stepped.2 ++ r.2)

/-- What `RequestStateEntry::GetDeltaRequestReturn` returns: the newly
generated token ids since the last report, their log-probability JSON strings,
an optional finish reason, and any extra prefix text.  The computation itself
lives in `request_state.cc`, outside this translation unit; the pipeline is
parameterized over it. -/
structure DeltaRequestReturn where
  delta_token_ids : List Int
  delta_logprob_json_strs : List String
  finish_reason : Option String
  extra_prefix_string : String
deriving DecidableEq, Repr, Inhabited

/-- The entry selection of the delta-collection loop:
`n == 1 ? rstate->entries[0] : rstate->entries[i + 1]`. -/
def BranchEntryIndex (n i : Nat) : Nat := if n == 1 then 0 else i + 1

/-- The delta-collection loop over the listed branch indices: branch `i`
reads entry `BranchEntryIndex n i` (the TVM array access is bounds-checked, so
an out-of-range entry index is a fatal error, modelled by `none`). -/
def CollectDeltasAux (getDelta : RequestStateEntry → DeltaRequestReturn)
    (entries : List RequestStateEntry) (n : Nat) :
    List Nat → Option (List DeltaRequestReturn)
  | [] => some []
  | i :: rest => do
    let e ← entries[BranchEntryIndex n i]?
    let ds ← CollectDeltasAux getDelta entries n rest
    some (getDelta e :: ds)

/-- The delta-collection loop of `ActionStepPostProcess` over the `n` branches
of one request (`for (int i = 0; i < n; ++i)`). -/
def CollectDeltas (getDelta : RequestStateEntry → DeltaRequestReturn)
    (entries : List RequestStateEntry) (n : Nat) :
    Option (List DeltaRequestReturn) :=
  CollectDeltasAux getDelta entries n (List.range n)

/-- A branch makes the request invoke the callback when it has a finish
reason, new delta tokens, or extra prefix text. -/
def DeltaInvokesCallback (d : DeltaRequestReturn) : Bool :=
  d.finish_reason.isSome || !d.delta_token_ids.isEmpty ||
    !d.extra_prefix_string.isEmpty

/-- The aggregated delta event built for one request: per-branch arrays in
branch order; the log-probability arrays are omitted when the request did not
ask for log-probabilities (`logprobs > 0`). -/
def MakeDeltaOutput (req : Request) (ds : List DeltaRequestReturn) :
    RequestStreamOutput :=
  RequestStreamOutput.delta req.id
    (ds.map (fun d => d.delta_token_ids))
    (if req.generation_cfg.logprobs > 0 then
        some (ds.map (fun d => d.delta_logprob_json_strs))
      else none)
    (ds.map (fun d => d.finish_reason))
    (ds.map (fun d => d.extra_prefix_string))

/-- The per-request part of the collection loop of `ActionStepPostProcess`:
compute all branch deltas, record which branches just finished (as
(request, entry index) pairs, in branch order), and emit the aggregated delta
event when some branch contributed. -/
def CollectRequestDeltas (getDelta : RequestStateEntry → DeltaRequestReturn)
    (estate : EngineState) (req : Request) :
    Option (List RequestStreamOutput × List (Request × Nat)) := do
  let rstate ← estate.GetRequestState req
  let n := req.generation_cfg.n
  let ds ← CollectDeltas getDelta rstate.entries n
  let finished := ((List.range n).zip ds).filterMap
    (fun p => if p.2.finish_reason.isSome then
        some (req, BranchEntryIndex n p.1)
      else none)
  let outs := if ds.any DeltaInvokesCallback then [MakeDeltaOutput req ds] else []
  some (outs, finished)

/-- The prefill-token metrics accumulation of `ActionStepPostProcess` step 1:
`rstate->metrics.prefill_tokens += data->GetLength()` over every prefilled
chunk of every entry's canonical model state. -/
def AccumPrefillTokens (rs : RequestState) : RequestState :=
  let add := rs.entries.foldl
    (fun acc e =>
      acc + e.mstate0.prefilled_inputs.foldl (fun a d => a + d.GetLength) 0) 0
  { rs with metrics :=
      { rs.metrics with prefill_tokens := rs.metrics.prefill_tokens + add } }

/-- Step 1 of `ActionStepPostProcess` over all touched requests (the fetch via
`GetRequestState` is a fatal `ICHECK` on a missing request, modelled by
`none`). -/
def AccumPrefillMetrics : List Request → EngineState → Option EngineState
  | [], estate => some estate
  | req :: rest, estate => do
    let rstate ← estate.GetRequestState req
    AccumPrefillMetrics rest (estate.SetRequestState req.id (AccumPrefillTokens rstate))

/-- The per-request collection loop of `ActionStepPostProcess`, accumulating
delta events and newly-finished (request, entry index) pairs in request
order. -/
def CollectAllDeltas (getDelta : RequestStateEntry → DeltaRequestReturn)
    (estate : EngineState) :
    List Request → Option (List RequestStreamOutput × List (Request × Nat))
  | [] => some ([], [])
  | req :: rest => do
    let cr ← CollectRequestDeltas getDelta estate req
    let r ← CollectAllDeltas getDelta estate rest
    some (cr.1 ++ r.1, cr.2 ++ r.2)

/-- `ActionStepPostProcess`: accumulate prefill metrics, sync the prefix
cache, collect per-branch deltas and newly-finished entries, run finish
propagation, and return the final engine state, the effect trace, the batch of
outgoing stream outputs, and whether the stream callback is invoked (it is
called exactly once, iff the batch is non-empty). -/
def ActionStepPostProcess (requests : List Request) (estate : EngineState)
    (num_models : Nat) (getDelta : RequestStateEntry → DeltaRequestReturn)
    (now : Int) :
    Option (EngineState × List Effect × List RequestStreamOutput × Bool) := do
  let estate1 ← AccumPrefillMetrics requests estate
  let synced ← UpdatePrefixCache requests estate1
  let collected ← CollectAllDeltas getDelta synced.1 requests
  let finprop ←
    ProcessFinishedRequestStateEntries num_models now synced.1 collected.2
  let outs := collected.1 ++ finprop.2.2
  some (finprop.1, synced.2 ++ finprop.2.1, outs, !outs.isEmpty)

/-- The reverse scan of `PreemptLastRunningRequestStateEntry` picking the
last (highest-index) entry whose status is `kAlive`. -/
def FindLastAlive (entries : List RequestStateEntry) : Option Nat :=
  (List.range entries.length).reverse.find? (fun i =>
    match entries[i]? with
    | some e => e.status == RequestStateStatus.kAlive
    | none => false)

/-- The input rebuild of the preemption loop: for the tree root
(`parent_idx == -1`) take the original request inputs and append the committed
token ids, merging into the trailing chunk when it is a token chunk; for a
non-root entry the rebuilt inputs are just the committed token ids as one new
token chunk (nothing when there are none).  (`inputs.back()` presupposes
non-empty request inputs; the impossible empty case falls into the
non-token-chunk branch.) -/
def RebuildInputs (parent_idx : Int) (request_inputs : List Data)
    (committed_token_ids : List Int) : List Data :=
  if parent_idx == -1 then
    match request_inputs.getLast? with
    | some (Data.tokenData ts) =>
      request_inputs.dropLast ++ [Data.tokenData (ts ++ committed_token_ids)]
    | _ =>
      if !committed_token_ids.isEmpty then
        request_inputs ++ [Data.tokenData committed_token_ids]
      else request_inputs
  else
    if !committed_token_ids.isEmpty then [Data.tokenData committed_token_ids]
    else []

/-- The per-model-state body of the preemption loop: free draft-token slots
(when a draft token workspace manager is present), reset
`num_prefilled_tokens`, rebuild `inputs` from the committed token ids, clear
`prefilled_inputs`, and reset the cache watermark to 0. -/
def PreemptMState (has_dtwm : Bool) (parent_idx : Int)
    (request_inputs : List Data) (m : RequestModelState) :
    RequestModelState × List Effect :=
  let effs := if has_dtwm then [Effect.freeSlots m.draft_token_slots] else []
  let m0 := if has_dtwm then { m with draft_token_slots := [] } else m
  let inputs := RebuildInputs parent_idx request_inputs m0.committed_tokens
  ({ m0 with
      num_prefilled_tokens := 0,
      inputs := inputs,
      prefilled_inputs := [],
      cached_committed_tokens := 0 }, effs)

/-- `PreemptLastRunningRequestStateEntry`: preempt the last alive entry of the
request at the back of the running queue.  `none` models the fatal `ICHECK`s
(empty running queue, missing request state, no alive entry).  Returns the
updated engine state, the effect trace, and the preempted entry. -/
def PreemptLastRunningRequestStateEntry (estate : EngineState)
    (num_models : Nat) (has_dtwm : Bool) :
    Option (EngineState × List Effect × RequestStateEntry) := do
  -- ICHECK(!estate->running_queue.empty())
  let request ← estate.running_queue.getLast?
  let rstate ← estate.GetRequestState request
  -- ICHECK_NE(preempt_rstate_idx, -1)
  let preempt_rstate_idx ← FindLastAlive rstate.entries
  let rsentry ← rstate.entries[preempt_rstate_idx]?
  let partially_alive := !rsentry.mstate0.inputs.isEmpty
  let rsentry1 := { rsentry with status := RequestStateStatus.kPending }
  let stepped :=
    (rsentry1.mstates.map
        (fun m => (PreemptMState has_dtwm rsentry1.parent_idx request.inputs m).1),
      rsentry1.mstates.flatMap
        (fun m => (PreemptMState has_dtwm rsentry1.parent_idx request.inputs m).2))
  let rsentry2 := { rsentry1 with mstates := stepped.1 }
  let old_id := rsentry2.mstate0.internal_id
  let effs2 :=
    if old_id ∈ estate.prefix_cache_resident then
      [Effect.recycleSequence old_id false]
    else RemoveRequestFromModel old_id num_models
  let new_seq_id := estate.id_manager_next_id
  let rsentry3 := { rsentry2 with
      mstates := rsentry2.mstates.map (fun m => { m with internal_id := new_seq_id }) }
  let rstate1 := { rstate with entries := rstate.entries.set preempt_rstate_idx rsentry3 }
  let estate1 :=
    { estate.SetRequestState request.id rstate1 with
        id_manager_next_id := estate.id_manager_next_id + 1 }
  let estate2 :=
    if preempt_rstate_idx == 0 then
      { estate1 with running_queue := estate1.running_queue.dropLast }
    else estate1
  let estate3 :=
    if !partially_alive && preempt_rstate_idx == rstate.entries.length - 1 then
      { estate2 with waiting_queue := request :: estate2.waiting_queue }
    else estate2
  some ({ estate3 with running_rsentries_changed := true },
    stepped.2 ++ effs2, rsentry3)

/-! ### Concrete fixtures used by witness theorems -/

def fixM (id : Int) : RequestModelState :=
  { internal_id := id, inputs := [], prefilled_inputs := [],
    committed_tokens := [], cached_committed_tokens := 0,
    num_prefilled_tokens := 0, draft_token_slots := [] }

def fixCfg (n : Nat) (pinned : Bool) : GenerationConfig :=
  { n := n, logprobs := 0, debug_config := { pinned_system_prompt := pinned } }

def fixReq (id : String) (n : Nat) (pinned : Bool) (inputs : List Data) :
    Request :=
  { id := id, inputs := inputs, generation_cfg := fixCfg n pinned }

def fixEntry (st : RequestStateStatus) (parent : Int) (children : List Nat)
    (req : Request) (mid : Int) : RequestStateEntry :=
  { status := st, parent_idx := parent, child_indices := children,
    request := req, mstates := [fixM mid] }

def fixMetrics : RequestMetrics :=
  { prefill_tokens := 0, finish_time_point := none }

def fixEngine (running waiting : List Request)
    (rss : List (String × RequestState)) (resident : List Int) : EngineState :=
  { running_queue := running, waiting_queue := waiting, request_states := rss,
    prefix_cache_resident := resident, id_manager_next_id := 100,
    metrics := [], running_rsentries_changed := false }

def fixReqA : Request := fixReq "r" 2 false []

def fixRS3 : RequestState :=
  { entries :=
      [fixEntry RequestStateStatus.kAlive (-1) [1, 2] fixReqA 10,
       fixEntry RequestStateStatus.kAlive 0 [] fixReqA 11,
       fixEntry RequestStateStatus.kAlive 0 [] fixReqA 12],
    metrics := fixMetrics }

def fixES3 : EngineState := fixEngine [fixReqA] [] [("r", fixRS3)] []

def fixEntryPinned : RequestStateEntry :=
  fixEntry RequestStateStatus.kFinished (-1) [] (fixReq "a" 1 true []) 7

def fixEntryPlain : RequestStateEntry :=
  fixEntry RequestStateStatus.kFinished (-1) [] (fixReq "a" 1 false []) 7

def fixM5 : RequestModelState :=
  { fixM 5 with committed_tokens := [10, 20, 30, 40], cached_committed_tokens := 1 }

def fixReqB : Request := fixReq "q" 2 false [Data.otherData 4]

def fixEntryB (st : RequestStateStatus) (parent : Int) (children : List Nat)
    (mid : Int) : RequestStateEntry :=
  { status := st, parent_idx := parent, child_indices := children,
    request := fixReqB,
    mstates := [{ fixM mid with committed_tokens := [21, 22] }] }

def fixRS4 : RequestState :=
  { entries :=
      [fixEntryB RequestStateStatus.kAlive (-1) [1, 2] 10,
       fixEntryB RequestStateStatus.kFinished 0 [] 11,
       fixEntryB RequestStateStatus.kAlive 0 [] 12],
    metrics := fixMetrics }

def fixES4 : EngineState := fixEngine [fixReqB] [] [("q", fixRS4)] [12]

def fixReqC : Request := fixReq "c" 1 false [Data.tokenData [1]]

def fixEntryC : RequestStateEntry :=
  fixEntry RequestStateStatus.kAlive (-1) [] fixReqC 7

def fixRSC : RequestState :=
  { entries := [fixEntryC], metrics := fixMetrics }

def fixESC : EngineState := fixEngine [fixReqC] [] [("c", fixRSC)] []

/-! ### Helper lemmas -/

theorem find?_map_key_preserving (l : List (String × RequestState))
    (f : String × RequestState → String × RequestState) (k : String)
    (hf : ∀ p, (f p).1 = p.1) :
    (l.map f).find? (fun p => p.1 == k) =
      (l.find? (fun p => p.1 == k)).map f := by
  rw [List.find?_map]
  have hfe : ((fun p : String × RequestState => p.1 == k) ∘ f) =
      (fun p : String × RequestState => p.1 == k) := by
    funext p
    simp [Function.comp, hf]
  rw [hfe]

theorem getRequestState_setRequestState (estate : EngineState) (id : String)
    (rs : RequestState) (req : Request) :
    (estate.SetRequestState id rs).GetRequestState req =
      if req.id = id then (estate.GetRequestState req).map (fun _ => rs)
      else estate.GetRequestState req := by
  unfold EngineState.SetRequestState EngineState.GetRequestState
  simp only
  rw [find?_map_key_preserving _ _ _
    (fun p => by by_cases h : p.1 == id <;> simp [h])]
  cases hf : estate.request_states.find? (fun p => p.1 == req.id) with
  | none => by_cases h : req.id = id <;> simp [h]
  | some pr =>
    have hpr := List.find?_some hf
    have hpr1 : pr.1 = req.id := by simpa using hpr
    by_cases h : req.id = id
    · simp [h, hpr1]
    · simp [h, hpr1]

theorem lookup_filter_ne (l : List (String × RequestState)) (id k : String) :
    ((l.filter (fun p => p.1 != id)).find? (fun p => p.1 == k)).map
        (fun p => p.2) =
      if k = id then none
      else (l.find? (fun p => p.1 == k)).map (fun p => p.2) := by
  induction l with
  | nil => by_cases h : k = id <;> simp [h]
  | cons p t ih =>
    rw [List.filter_cons]
    by_cases hpid : p.1 = id
    · have hb : (p.1 != id) = false := by simp [hpid]
      rw [hb, if_neg (by simp : ¬(false = true)), ih]
      by_cases hk : k = id
      · rw [if_pos hk, if_pos hk]
      · rw [if_neg hk, if_neg hk]
        have hneg : ¬((fun q : String × RequestState => q.1 == k) p = true) := by
          simp only [beq_iff_eq, hpid]
          exact fun h => hk h.symm
        rw [@List.find?_cons_of_neg _ (fun q : String × RequestState => q.1 == k)
          p t hneg]
    · have hb : (p.1 != id) = true := by simp [hpid]
      rw [hb, if_pos rfl]
      by_cases hpk : p.1 = k
      · have hpos : (fun q : String × RequestState => q.1 == k) p = true := by
          simp [hpk]
        have hk : ¬k = id := fun h => hpid (by rw [hpk, h])
        rw [@List.find?_cons_of_pos _ (fun q : String × RequestState => q.1 == k)
            p (t.filter (fun q => q.1 != id)) hpos,
          @List.find?_cons_of_pos _ (fun q : String × RequestState => q.1 == k)
            p t hpos, if_neg hk]
      · have hneg : ¬((fun q : String × RequestState => q.1 == k) p = true) := by
          simp [hpk]
        rw [@List.find?_cons_of_neg _ (fun q : String × RequestState => q.1 == k)
            p (t.filter (fun q => q.1 != id)) hneg,
          @List.find?_cons_of_neg _ (fun q : String × RequestState => q.1 == k)
            p t hneg, ih]

theorem getRequestState_eraseRequestState (estate : EngineState) (id : String)
    (req : Request) :
    (estate.EraseRequestState id).GetRequestState req =
      if req.id = id then none else estate.GetRequestState req := by
  unfold EngineState.EraseRequestState EngineState.GetRequestState
  simpa using lookup_filter_ne estate.request_states id req.id

theorem collectDeltasAux_spec (getDelta : RequestStateEntry → DeltaRequestReturn)
    (entries : List RequestStateEntry) (n : Nat) :
    ∀ (idxs : List Nat) (ds : List DeltaRequestReturn),
      CollectDeltasAux getDelta entries n idxs = some ds →
      ∀ (k i : Nat), idxs[k]? = some i →
        ds[k]? = (entries[BranchEntryIndex n i]?).map getDelta
  | [], ds, h, k, i, hk => by simp at hk
  | j :: rest, ds, h, k, i, hk => by
    unfold CollectDeltasAux at h
    cases he : entries[BranchEntryIndex n j]? with
    | none => simp [he] at h
    | some e =>
      cases hr : CollectDeltasAux getDelta entries n rest with
      | none => simp [he, hr] at h
      | some ds0 =>
        rw [he, hr] at h
        simp at h
        subst h
        cases k with
        | zero =>
          simp at hk
          subst hk
          simp [he]
        | succ k0 =>
          simp only [List.getElem?_cons_succ] at hk ⊢
          exact collectDeltasAux_spec getDelta entries n rest ds0 hr k0 i hk

theorem preemptMState_internal_id (hd : Bool) (pa : Int) (ri : List Data)
    (m : RequestModelState) :
    (PreemptMState hd pa ri m).1.internal_id = m.internal_id := by
  cases hd <;> rfl

theorem preemptMState_inputs (hd : Bool) (pa : Int) (ri : List Data)
    (m : RequestModelState) :
    (PreemptMState hd pa ri m).1.inputs =
      RebuildInputs pa ri m.committed_tokens := by
  cases hd <;> rfl

theorem headI_map_internal (f : RequestModelState → RequestModelState)
    (hf : ∀ m, (f m).internal_id = m.internal_id)
    (l : List RequestModelState) :
    (l.map f).headI.internal_id = l.headI.internal_id := by
  cases l with
  | nil => rfl
  | cons m t => simp [List.headI, hf]

/-! ### Claim theorems -/

/-- C2: an entry passed to finish propagation as a newly-finished leaf with a
non-empty child list hits the fatal `ICHECK(rsentry->child_indices.empty())`
(modelled by `none`), with no recovery. -/
theorem processFinishedOne_nonleaf_fatal (num_models : Nat) (now : Int)
    (estate : EngineState) (req : Request) (leaf_idx : Nat)
    (rstate : RequestState) (rsentry : RequestStateEntry)
    (h1 : estate.GetRequestState req = some rstate)
    (h2 : rstate.entries[leaf_idx]? = some rsentry)
    (h3 : rsentry.child_indices ≠ []) :
    ProcessFinishedOne num_models now estate req leaf_idx = none := by
  have hne : rsentry.child_indices.isEmpty = false := by
    simpa [List.isEmpty_iff] using h3
  unfold ProcessFinishedOne
  simp [h1, h2, h3]

/-- Witness for C2: finishing the non-leaf root of a two-child tree is fatal. -/
theorem processFinishedOne_nonleaf_fatal_witness :
    ProcessFinishedOne 1 5 fixES3 fixReqA 0 = none :=
  processFinishedOne_nonleaf_fatal 1 5 fixES3 fixReqA 0 fixRS3
    (fixEntry RequestStateStatus.kAlive (-1) [1, 2] fixReqA 10)
    (by decide) (by decide) (by decide)

/-- C3: removal of a finished entry follows the cache policy: resident and not
pinned recycles the sequence in the prefix cache lazily and touches nothing
else; resident and pinned performs no external modification at all; not
resident removes the sequence from every model and recycles the id via the
allocator. -/
theorem removeRequestStateEntry_cache_policy (estate : EngineState)
    (num_models : Nat) (rsentry : RequestStateEntry) :
    (rsentry.mstate0.internal_id ∈ estate.prefix_cache_resident →
      (rsentry.request.generation_cfg.debug_config.pinned_system_prompt = false →
        RemoveRequestStateEntry estate num_models rsentry =
          [Effect.recycleSequence rsentry.mstate0.internal_id true]) ∧
      (rsentry.request.generation_cfg.debug_config.pinned_system_prompt = true →
        RemoveRequestStateEntry estate num_models rsentry = [])) ∧
    (rsentry.mstate0.internal_id ∉ estate.prefix_cache_resident →
      (∀ m, m < num_models →
        Effect.removeSequence m rsentry.mstate0.internal_id ∈
          RemoveRequestStateEntry estate num_models rsentry) ∧
      Effect.recycleId rsentry.mstate0.internal_id ∈
        RemoveRequestStateEntry estate num_models rsentry ∧
      RemoveRequestStateEntry estate num_models rsentry =
        (List.range num_models).map
          (fun m => Effect.removeSequence m rsentry.mstate0.internal_id) ++
          [Effect.recycleId rsentry.mstate0.internal_id]) := by
  unfold RemoveRequestStateEntry RemoveRequestFromModel
  constructor
  · intro hin
    constructor
    · intro hp; simp [hin, hp]
    · intro hp; simp [hin, hp]
  · intro hout
    refine ⟨?_, ?_, by simp [hout]⟩
    · intro m hm
      simp [hout, hm]
    · simp [hout]

/-- Witness for C3: the three policy cases on concrete states. -/
theorem removeRequestStateEntry_cache_policy_witness :
    RemoveRequestStateEntry (fixEngine [] [] [] [7]) 2 fixEntryPlain =
      [Effect.recycleSequence 7 true] ∧
    RemoveRequestStateEntry (fixEngine [] [] [] [7]) 2 fixEntryPinned = [] ∧
    RemoveRequestStateEntry (fixEngine [] [] [] []) 2 fixEntryPlain =
      [Effect.removeSequence 0 7, Effect.removeSequence 1 7,
       Effect.recycleId 7] := by
  refine ⟨((removeRequestStateEntry_cache_policy (fixEngine [] [] [] [7]) 2
      fixEntryPlain).1 (by decide)).1 (by decide), ?_, ?_⟩
  · exact ((removeRequestStateEntry_cache_policy (fixEngine [] [] [] [7]) 2
      fixEntryPinned).1 (by decide)).2 (by decide)
  · have h := ((removeRequestStateEntry_cache_policy (fixEngine [] [] [] []) 2
      fixEntryPlain).2 (by decide)).2.2
    simpa using h

/-- C6: in delta collection, reported branch `i` of a request with branch
count `n` is read from entry 0 of the request-state tree when `n = 1` and from
entry `i + 1` when `n > 1`, for every `i < n`. -/
theorem collectDeltas_branch_entry_mapping
    (getDelta : RequestStateEntry → DeltaRequestReturn)
    (entries : List RequestStateEntry) (n : Nat)
    (ds : List DeltaRequestReturn) (i : Nat)
    (h : CollectDeltas getDelta entries n = some ds) (hi : i < n) :
    ds[i]? = (entries[if n = 1 then 0 else i + 1]?).map getDelta := by
  have hr : (List.range n)[i]? = some i := by simp [hi]
  have := collectDeltasAux_spec getDelta entries n (List.range n) ds h i i hr
  rw [this]
  by_cases hn : n = 1 <;> simp [BranchEntryIndex, hn]

/-- Witness for C6: a three-branch request reads branch 1 from entry 2. -/
theorem collectDeltas_branch_entry_mapping_witness :
    (([⟨[11], [], none, ""⟩, ⟨[12], [], none, ""⟩] :
        List DeltaRequestReturn))[1]? =
      (fixRS3.entries[if 2 = 1 then 0 else 1 + 1]?).map
        (fun e => (⟨[e.mstate0.internal_id], [], none, ""⟩ :
          DeltaRequestReturn)) :=
  collectDeltas_branch_entry_mapping
    (fun e => (⟨[e.mstate0.internal_id], [], none, ""⟩ : DeltaRequestReturn))
    fixRS3.entries 2 [⟨[11], [], none, ""⟩, ⟨[12], [], none, ""⟩] 1
    (by decide) (by decide)

theorem rangeMap_getD_eq_drop_take (l : List Int) (s e : Nat) (hse : s ≤ e)
    (hel : e ≤ l.length) :
    (List.range (e - s)).map (fun k => l.getD (s + k) 0) = (l.take e).drop s := by
  apply List.ext_getElem?
  intro i
  rw [List.getElem?_map, List.getElem?_drop, List.getElem?_take]
  by_cases hi : i < e - s
  · have h1 : s + i < e := by omega
    have h2 : s + i < l.length := by omega
    rw [List.getElem?_range hi, if_pos h1]
    simp [List.getD_eq_getElem l 0 h2, List.getElem?_eq_getElem h2]
  · have h1 : ¬s + i < e := by omega
    rw [if_neg h1]
    have h2 : (List.range (e - s))[i]? = none := by
      rw [List.getElem?_eq_none_iff]
      simpa using (by omega : e - s ≤ i)
    rw [h2]
    rfl

/-- C5: for a model state with `cached_committed_tokens <
committed_tokens.size() - 1` at the start of prefix-cache sync, the sync
extends the prefix cache with exactly the committed token ids from the
watermark up to but excluding the last committed token, and afterwards the
watermark equals `committed_tokens.size() - 1`. -/
theorem updatePrefixCache_watermark (m : RequestModelState)
    (h0 : 0 ≤ m.cached_committed_tokens)
    (h1 : m.cached_committed_tokens < (m.committed_tokens.length : Int) - 1) :
    (UpdatePrefixCacheMState m).1.cached_committed_tokens =
        (m.committed_tokens.length : Int) - 1 ∧
    (UpdatePrefixCacheMState m).2 =
      (if m.prefilled_inputs.isEmpty then []
        else [Effect.extendSequence m.internal_id
          (TokenIdsOfData m.prefilled_inputs)]) ++
      [Effect.extendSequence m.internal_id
        ((m.committed_tokens.take (m.committed_tokens.length - 1)).drop
          m.cached_committed_tokens.toNat)] := by
  have hslice :
      (List.range ((m.committed_tokens.length : Int) - 1 -
          m.cached_committed_tokens).toNat).map
        (fun k => m.committed_tokens.getD (m.cached_committed_tokens.toNat + k) 0) =
      (m.committed_tokens.take (m.committed_tokens.length - 1)).drop
        m.cached_committed_tokens.toNat := by
    have he : ((m.committed_tokens.length : Int) - 1 -
        m.cached_committed_tokens).toNat =
        (m.committed_tokens.length - 1) - m.cached_committed_tokens.toNat := by
      omega
    rw [he]
    exact rangeMap_getD_eq_drop_take m.committed_tokens
      m.cached_committed_tokens.toNat (m.committed_tokens.length - 1)
      (by omega) (by omega)
  by_cases hp : m.prefilled_inputs.isEmpty
  · simp only [UpdatePrefixCacheMState, hp, Bool.not_true, Bool.false_eq_true,
      if_false, if_pos h1, hslice]
    exact ⟨trivial, by simp [hp]⟩
  · have hpf : m.prefilled_inputs.isEmpty = false := by
      simpa using hp
    simp only [UpdatePrefixCacheMState, hpf, Bool.not_false, if_true,
      if_pos h1, hslice]
    exact ⟨trivial, by simp [hpf]⟩

/-- Witness for C5: committed tokens `[10, 20, 30, 40]` with watermark 1 push
exactly `[20, 30]` and end with watermark 3. -/
theorem updatePrefixCache_watermark_witness :
    (UpdatePrefixCacheMState fixM5).1.cached_committed_tokens = 3 ∧
    (UpdatePrefixCacheMState fixM5).2 = [Effect.extendSequence 5 [20, 30]] := by
  have h := updatePrefixCache_watermark fixM5 (by decide) (by decide)
  refine ⟨h.1, ?_⟩
  rw [h.2]
  decide

/-- C7: preemption rebuilds the evicted entry's pending inputs: for a root
entry (parent index -1) the original request inputs with the committed token
ids appended — merged into the trailing chunk when it is a token chunk,
otherwise appended as a new token chunk; for a non-root entry exactly the
committed token ids as a single new token chunk, with the original request
inputs excluded. -/
theorem preempt_rebuild_inputs (estate : EngineState) (num_models : Nat)
    (has_dtwm : Bool) (req : Request) (rstate : RequestState) (idx : Nat)
    (rsentry : RequestStateEntry)
    (h1 : estate.running_queue.getLast? = some req)
    (h2 : estate.GetRequestState req = some rstate)
    (h3 : FindLastAlive rstate.entries = some idx)
    (h4 : rstate.entries[idx]? = some rsentry) :
    ∃ out, PreemptLastRunningRequestStateEntry estate num_models has_dtwm =
        some out ∧
      ∀ (j : Nat) (m : RequestModelState), rsentry.mstates[j]? = some m →
        ∃ m2 : RequestModelState, out.2.2.mstates[j]? = some m2 ∧
          ((∀ A, rsentry.parent_idx = -1 →
              req.inputs.getLast? = some (Data.tokenData A) →
              m2.inputs = req.inputs.dropLast ++
                [Data.tokenData (A ++ m.committed_tokens)]) ∧
           (rsentry.parent_idx = -1 →
              (∀ A, req.inputs.getLast? ≠ some (Data.tokenData A)) →
              m.committed_tokens ≠ [] →
              m2.inputs = req.inputs ++ [Data.tokenData m.committed_tokens]) ∧
           (rsentry.parent_idx ≠ -1 → m.committed_tokens ≠ [] →
              m2.inputs = [Data.tokenData m.committed_tokens])) := by
  unfold PreemptLastRunningRequestStateEntry
  rw [h1]
  simp only [Option.bind_eq_bind, Option.some_bind]
  rw [h2]
  simp only [Option.bind_eq_bind, Option.some_bind]
  rw [h3]
  simp only [Option.bind_eq_bind, Option.some_bind]
  rw [h4]
  simp only [Option.bind_eq_bind, Option.some_bind]
  refine ⟨_, rfl, ?_⟩
  intro j m hm
  refine ⟨{ (PreemptMState has_dtwm rsentry.parent_idx req.inputs m).1 with
      internal_id := estate.id_manager_next_id },
    by simp [List.getElem?_map, hm], ?_, ?_, ?_⟩
  · intro A hroot hlast
    simp only [preemptMState_inputs]
    simp [RebuildInputs, hroot, hlast]
  · intro hroot hnl hcne
    simp only [preemptMState_inputs]
    cases glast : req.inputs.getLast? with
    | none => simp [RebuildInputs, hroot, glast, hcne]
    | some d =>
      cases d with
      | tokenData ts => exact absurd glast (hnl ts)
      | otherData len => simp [RebuildInputs, hroot, glast, hcne]
  · intro hroot hcne
    have hb : (rsentry.parent_idx == -1) = false := by
      simpa using hroot
    simp only [preemptMState_inputs]
    simp [RebuildInputs, hb, hcne]

/-- Witness for C7: preempting the non-root entry 2 of a concrete tree whose
canonical model state committed `[21, 22]`. -/
theorem preempt_rebuild_inputs_witness :
    ∃ out, PreemptLastRunningRequestStateEntry fixES4 1 false = some out ∧
      ∀ (j : Nat) (m : RequestModelState),
        (fixEntryB RequestStateStatus.kAlive 0 [] 12).mstates[j]? = some m →
        ∃ m2 : RequestModelState, out.2.2.mstates[j]? = some m2 ∧
          ((∀ A, (fixEntryB RequestStateStatus.kAlive 0 [] 12).parent_idx = -1 →
              fixReqB.inputs.getLast? = some (Data.tokenData A) →
              m2.inputs = fixReqB.inputs.dropLast ++
                [Data.tokenData (A ++ m.committed_tokens)]) ∧
           ((fixEntryB RequestStateStatus.kAlive 0 [] 12).parent_idx = -1 →
              (∀ A, fixReqB.inputs.getLast? ≠ some (Data.tokenData A)) →
              m.committed_tokens ≠ [] →
              m2.inputs = fixReqB.inputs ++ [Data.tokenData m.committed_tokens]) ∧
           ((fixEntryB RequestStateStatus.kAlive 0 [] 12).parent_idx ≠ -1 →
              m.committed_tokens ≠ [] →
              m2.inputs = [Data.tokenData m.committed_tokens])) :=
  preempt_rebuild_inputs fixES4 1 false fixReqB fixRS4 2
    (fixEntryB RequestStateStatus.kAlive 0 [] 12)
    (by decide) (by decide) (by decide) (by decide)

/-- C8: at the end of preemption the request is removed from the back of the
running queue iff the evicted entry is the tree root (entry index 0), and is
inserted at the front of the waiting queue iff the entry was not partially
alive (no unconsumed pending inputs) and was the highest-index entry of the
tree; otherwise the queues are unchanged. -/
theorem preempt_requeue_policy (estate : EngineState) (num_models : Nat)
    (has_dtwm : Bool) (req : Request) (rstate : RequestState) (idx : Nat)
    (rsentry : RequestStateEntry)
    (h1 : estate.running_queue.getLast? = some req)
    (h2 : estate.GetRequestState req = some rstate)
    (h3 : FindLastAlive rstate.entries = some idx)
    (h4 : rstate.entries[idx]? = some rsentry) :
    ∃ out, PreemptLastRunningRequestStateEntry estate num_models has_dtwm =
        some out ∧
      out.1.running_queue =
        (if idx == 0 then estate.running_queue.dropLast
          else estate.running_queue) ∧
      out.1.waiting_queue =
        (if rsentry.mstate0.inputs.isEmpty &&
            (idx == rstate.entries.length - 1) then
          req :: estate.waiting_queue
        else estate.waiting_queue) := by
  unfold PreemptLastRunningRequestStateEntry
  rw [h1]
  simp only [Option.bind_eq_bind, Option.some_bind]
  rw [h2]
  simp only [Option.bind_eq_bind, Option.some_bind]
  rw [h3]
  simp only [Option.bind_eq_bind, Option.some_bind]
  rw [h4]
  simp only [Option.bind_eq_bind, Option.some_bind]
  refine ⟨_, rfl, ?_, ?_⟩
  · cases hw : (rsentry.mstate0.inputs.isEmpty &&
        (idx == rstate.entries.length - 1)) <;>
      cases hc : (idx == 0) <;>
        simp [EngineState.SetRequestState, hw, hc]
  · cases hw : (rsentry.mstate0.inputs.isEmpty &&
        (idx == rstate.entries.length - 1)) <;>
      cases hc : (idx == 0) <;>
        simp [EngineState.SetRequestState, hw, hc]

/-- Witness for C8: preempting the non-root, highest-index, fully-consumed
entry leaves the running queue and pushes the request to the waiting front. -/
theorem preempt_requeue_policy_witness :
    ∃ out, PreemptLastRunningRequestStateEntry fixES4 1 false = some out ∧
      out.1.running_queue =
        (if (2 : Nat) == 0 then fixES4.running_queue.dropLast
          else fixES4.running_queue) ∧
      out.1.waiting_queue =
        (if (fixEntryB RequestStateStatus.kAlive 0 [] 12).mstate0.inputs.isEmpty &&
            ((2 : Nat) == fixRS4.entries.length - 1) then
          fixReqB :: fixES4.waiting_queue
        else fixES4.waiting_queue) :=
  preempt_requeue_policy fixES4 1 false fixReqB fixRS4 2
    (fixEntryB RequestStateStatus.kAlive 0 [] 12)
    (by decide) (by decide) (by decide) (by decide)

/-- C10: preemption does not honor the pinned flag: a cache-resident sequence
is recycled eagerly regardless of pinning (whereas the finish-removal path
leaves a pinned resident sequence untouched); a non-resident sequence is
removed from every model with no `RecycleId` call ever issued; and every model
state of the evicted entry is assigned the allocator's fresh id. -/
theorem preempt_ignores_pinned (estate : EngineState) (num_models : Nat)
    (has_dtwm : Bool) (req : Request) (rstate : RequestState) (idx : Nat)
    (rsentry : RequestStateEntry)
    (h1 : estate.running_queue.getLast? = some req)
    (h2 : estate.GetRequestState req = some rstate)
    (h3 : FindLastAlive rstate.entries = some idx)
    (h4 : rstate.entries[idx]? = some rsentry) :
    ∃ out, PreemptLastRunningRequestStateEntry estate num_models has_dtwm =
        some out ∧
      (rsentry.mstate0.internal_id ∈ estate.prefix_cache_resident →
        Effect.recycleSequence rsentry.mstate0.internal_id false ∈ out.2.1) ∧
      (rsentry.mstate0.internal_id ∉ estate.prefix_cache_resident →
        ∀ mi, mi < num_models →
          Effect.removeSequence mi rsentry.mstate0.internal_id ∈ out.2.1) ∧
      (∀ i, Effect.recycleId i ∉ out.2.1) ∧
      (∀ m2 ∈ out.2.2.mstates, m2.internal_id = estate.id_manager_next_id) ∧
      (rsentry.request.generation_cfg.debug_config.pinned_system_prompt = true →
        rsentry.mstate0.internal_id ∈ estate.prefix_cache_resident →
        RemoveRequestStateEntry estate num_models rsentry = []) := by
  unfold PreemptLastRunningRequestStateEntry
  rw [h1]
  simp only [Option.bind_eq_bind, Option.some_bind]
  rw [h2]
  simp only [Option.bind_eq_bind, Option.some_bind]
  rw [h3]
  simp only [Option.bind_eq_bind, Option.some_bind]
  rw [h4]
  simp only [Option.bind_eq_bind, Option.some_bind]
  refine ⟨_, rfl, ?_, ?_, ?_, ?_, ?_⟩
  · intro hin
    simp only [RequestStateEntry.mstate0] at hin
    simp only [RequestStateEntry.mstate0,
      headI_map_internal _
        (fun m => preemptMState_internal_id has_dtwm rsentry.parent_idx req.inputs m)]
    rw [if_pos hin]
    simp
  · intro hout mi hmi
    simp only [RequestStateEntry.mstate0] at hout
    simp only [RequestStateEntry.mstate0,
      headI_map_internal _
        (fun m => preemptMState_internal_id has_dtwm rsentry.parent_idx req.inputs m)]
    rw [if_neg hout]
    simp [RemoveRequestFromModel, hmi]
  · intro i
    simp only [RequestStateEntry.mstate0,
      headI_map_internal _
        (fun m => preemptMState_internal_id has_dtwm rsentry.parent_idx req.inputs m)]
    simp only [List.mem_append, not_or]
    refine ⟨?_, ?_⟩
    · intro hmem
      rcases List.mem_flatMap.mp hmem with ⟨m, hm, hx⟩
      cases has_dtwm <;> simp [PreemptMState] at hx
    · by_cases hc : rsentry.mstates.headI.internal_id ∈ estate.prefix_cache_resident
      · rw [if_pos hc]
        simp
      · rw [if_neg hc]
        simp [RemoveRequestFromModel]
  · intro m2 hm2
    simp only [List.mem_map] at hm2
    rcases hm2 with ⟨m, hm, rfl⟩
    rfl
  · intro hpin hin
    unfold RemoveRequestStateEntry
    rw [if_pos hin]
    simp [hpin]

/-- Witness for C10: preempting entry 2 of a tree whose sequence id 12 is not
cache-resident. -/
theorem preempt_ignores_pinned_witness :
    ∃ out, PreemptLastRunningRequestStateEntry fixES3 1 false = some out ∧
      ((fixEntry RequestStateStatus.kAlive 0 [] fixReqA 12).mstate0.internal_id ∈
          fixES3.prefix_cache_resident →
        Effect.recycleSequence
          (fixEntry RequestStateStatus.kAlive 0 [] fixReqA 12).mstate0.internal_id
          false ∈ out.2.1) ∧
      ((fixEntry RequestStateStatus.kAlive 0 [] fixReqA 12).mstate0.internal_id ∉
          fixES3.prefix_cache_resident →
        ∀ mi, mi < 1 →
          Effect.removeSequence mi
            (fixEntry RequestStateStatus.kAlive 0 [] fixReqA 12).mstate0.internal_id ∈
            out.2.1) ∧
      (∀ i, Effect.recycleId i ∉ out.2.1) ∧
      (∀ m2 ∈ out.2.2.mstates, m2.internal_id = fixES3.id_manager_next_id) ∧
      ((fixEntry RequestStateStatus.kAlive 0 [] fixReqA
            12).request.generation_cfg.debug_config.pinned_system_prompt = true →
        (fixEntry RequestStateStatus.kAlive 0 [] fixReqA 12).mstate0.internal_id ∈
          fixES3.prefix_cache_resident →
        RemoveRequestStateEntry fixES3 1
          (fixEntry RequestStateStatus.kAlive 0 [] fixReqA 12) = []) :=
  preempt_ignores_pinned fixES3 1 false fixReqA fixRS3 2
    (fixEntry RequestStateStatus.kAlive 0 [] fixReqA 12)
    (by decide) (by decide) (by decide) (by decide)

/-- C4: when the finish-propagation climb ends at parent index -1 (so the root
is Finished), the request must be in the running queue — fatal otherwise — and
on success it is erased from the running queue and the request-state map, the
finish timestamp is stamped, the per-request metrics are folded into the
aggregate metrics, and exactly one terminal usage event keyed by the root
entry's request id is appended. -/
theorem finish_root_removal_and_usage (num_models : Nat) (now : Int)
    (estate : EngineState) (req : Request) (leaf_idx : Nat)
    (rstate : RequestState) (rsentry : RequestStateEntry)
    (entries2 : List RequestStateEntry) (effs1 : List Effect)
    (h1 : estate.GetRequestState req = some rstate)
    (h2 : rstate.entries[leaf_idx]? = some rsentry)
    (h3 : rsentry.child_indices = [])
    (hclimb : ClimbFinished estate num_models
        (rstate.entries.set leaf_idx
          { rsentry with status := RequestStateStatus.kFinished }).length
        (rstate.entries.set leaf_idx
          { rsentry with status := RequestStateStatus.kFinished })
        rsentry.parent_idx = (entries2, -1, effs1)) :
    (req ∉ estate.running_queue →
      ProcessFinishedOne num_models now estate req leaf_idx = none) ∧
    (req ∈ estate.running_queue →
      ∃ st : EngineState, ProcessFinishedOne num_models now estate req leaf_idx =
        some (st,
          RemoveRequestStateEntry estate num_models
              { rsentry with status := RequestStateStatus.kFinished } ++ effs1,
          [RequestStreamOutput.usage entries2.headI.request.id
            { rstate.metrics with finish_time_point := some now }]) ∧
        st.running_queue = estate.running_queue.erase req ∧
        st.GetRequestState req = none ∧
        st.metrics = estate.metrics ++
          [{ rstate.metrics with finish_time_point := some now }] ∧
        st.running_rsentries_changed = true) := by
  unfold ProcessFinishedOne
  rw [h1]
  simp only [Option.bind_eq_bind, Option.some_bind]
  rw [h2]
  simp only [Option.bind_eq_bind, Option.some_bind]
  have hie : rsentry.child_indices.isEmpty = true := by simp [h3]
  rw [hie]
  simp only [Bool.not_true, Bool.false_eq_true, if_false]
  rw [hclimb]
  simp only []
  rw [if_pos (by decide : (((-1 : Int) == -1) = true))]
  constructor
  · intro hnin
    have hc : ((estate.SetRequestState req.id
        { rstate with entries := entries2 }).running_queue.contains req) = false := by
      simp only [EngineState.SetRequestState]
      simpa using hnin
    rw [hc]
    simp
  · intro hin
    have hc : ((estate.SetRequestState req.id
        { rstate with entries := entries2 }).running_queue.contains req) = true := by
      simp only [EngineState.SetRequestState]
      simpa using hin
    rw [hc]
    simp only [Bool.not_true, Bool.false_eq_true, if_false]
    refine ⟨_, rfl, ?_, ?_, ?_, ?_⟩
    · simp [EngineState.SetRequestState]
    · have hl := lookup_filter_ne
        (estate.SetRequestState req.id
          { rstate with entries := entries2 }).request_states req.id req.id
      rw [if_pos rfl] at hl
      exact hl
    · simp [EngineState.SetRequestState, EngineState.EraseRequestState]
    · rfl

/-- Witness for C4: finishing the single root entry of a one-entry tree. -/
theorem finish_root_removal_and_usage_witness :
    (fixReqC ∉ fixESC.running_queue →
      ProcessFinishedOne 1 9 fixESC fixReqC 0 = none) ∧
    (fixReqC ∈ fixESC.running_queue →
      ∃ st : EngineState, ProcessFinishedOne 1 9 fixESC fixReqC 0 =
        some (st,
          RemoveRequestStateEntry fixESC 1
              { fixEntryC with status := RequestStateStatus.kFinished } ++ [],
          [RequestStreamOutput.usage
            ([{ fixEntryC with
                status := RequestStateStatus.kFinished }].headI.request.id)
            { fixRSC.metrics with finish_time_point := some 9 }]) ∧
        st.running_queue = fixESC.running_queue.erase fixReqC ∧
        st.GetRequestState fixReqC = none ∧
        st.metrics = fixESC.metrics ++
          [{ fixRSC.metrics with finish_time_point := some 9 }] ∧
        st.running_rsentries_changed = true) :=
  finish_root_removal_and_usage 1 9 fixESC fixReqC 0 fixRSC fixEntryC
    [{ fixEntryC with status := RequestStateStatus.kFinished }] []
    (by decide) (by decide) (by decide) (by decide)

theorem allChildrenFinished_set_finished (entries : List RequestStateEntry)
    (j : Nat) (pj e : RequestStateEntry)
    (h : allChildrenFinished entries e = true) :
    allChildrenFinished
      (entries.set j { pj with status := RequestStateStatus.kFinished }) e =
      true := by
  unfold allChildrenFinished at h ⊢
  rw [List.all_eq_true] at h ⊢
  intro c hc
  have hce := h c hc
  cases hlk : entries[c]? with
  | none => rw [hlk] at hce; simp at hce
  | some ce =>
    rw [hlk] at hce
    by_cases hjc : j = c
    · subst hjc
      have hlen : j < entries.length := by
        by_contra hcon
        rw [List.getElem?_eq_none_iff.mpr (by omega)] at hlk
        simp at hlk
      rw [List.getElem?_set_self hlen]
      simp
    · rw [List.getElem?_set_ne hjc, hlk]
      exact hce

theorem finishedInv_set_finished (entries : List RequestStateEntry) (j : Nat)
    (pj : RequestStateEntry)
    (hacf : allChildrenFinished entries pj = true)
    (h : finishedInv entries = true) :
    finishedInv
      (entries.set j { pj with status := RequestStateStatus.kFinished }) =
      true := by
  unfold finishedInv at h ⊢
  rw [List.all_eq_true] at h ⊢
  intro e he
  rcases List.mem_or_eq_of_mem_set he with he' | rfl
  · have hp := h e he'
    by_cases hst : e.status == RequestStateStatus.kFinished
    · rw [Bool.or_eq_true] at hp ⊢
      rcases hp with hp | hp
      · rw [hst] at hp; simp at hp
      · exact Or.inr (allChildrenFinished_set_finished entries j pj e hp)
    · have : (e.status == RequestStateStatus.kFinished) = false := by
        simpa using hst
      rw [this]
      simp
  · rw [Bool.or_eq_true]
    exact Or.inr (allChildrenFinished_set_finished entries j pj _ hacf)

theorem climbFinished_inv (estate : EngineState) (nm : Nat) :
    ∀ (fuel : Nat) (entries : List RequestStateEntry) (p : Int),
      finishedInv entries = true →
      finishedInv (ClimbFinished estate nm fuel entries p).1 = true
  | 0, entries, p, h => h
  | fuel + 1, entries, p, h => by
    unfold ClimbFinished
    by_cases hp : p < 0
    · rw [if_pos hp]; exact h
    · rw [if_neg hp]
      cases hpe : entries[p.toNat]? with
      | none => exact h
      | some pe =>
        dsimp only
        by_cases hacf : allChildrenFinished entries pe = true
        · have hb : (!allChildrenFinished entries pe) = false := by simp [hacf]
          rw [hb]
          simp only [Bool.false_eq_true, if_false]
          exact climbFinished_inv estate nm fuel _ _
            (finishedInv_set_finished entries p.toNat pe hacf h)
        · have hb : (!allChildrenFinished entries pe) = true := by
            simp only [Bool.not_eq_true']
            simpa using hacf
          rw [hb]
          simp only [if_true]
          exact h

theorem engineFinishedInv_set (estate : EngineState) (id : String)
    (rs : RequestState) (h : engineFinishedInv estate = true)
    (hrs : finishedInv rs.entries = true) :
    engineFinishedInv (estate.SetRequestState id rs) = true := by
  unfold engineFinishedInv at h ⊢
  unfold EngineState.SetRequestState
  rw [List.all_eq_true] at h ⊢
  intro p hp
  rcases List.mem_map.mp hp with ⟨q, hq, rfl⟩
  by_cases hqid : (q.1 == id) = true
  · simp [hqid, hrs]
  · have hq2 : (q.1 == id) = false := by simpa using hqid
    simp only [hq2, Bool.false_eq_true, if_false]
    exact h q hq

theorem engineFinishedInv_erase (estate : EngineState) (id : String)
    (h : engineFinishedInv estate = true) :
    engineFinishedInv (estate.EraseRequestState id) = true := by
  unfold engineFinishedInv at h ⊢
  unfold EngineState.EraseRequestState
  rw [List.all_eq_true] at h ⊢
  intro p hp
  exact h p (List.mem_of_mem_filter hp)

theorem processFinishedOne_inv (nm : Nat) (now : Int) (estate : EngineState)
    (req : Request) (leaf : Nat)
    (out : EngineState × List Effect × List RequestStreamOutput)
    (hinv : engineFinishedInv estate = true)
    (h : ProcessFinishedOne nm now estate req leaf = some out) :
    engineFinishedInv out.1 = true := by
  unfold ProcessFinishedOne at h
  cases hrs : estate.GetRequestState req with
  | none => rw [hrs] at h; simp at h
  | some rstate =>
    rw [hrs] at h
    simp only [Option.bind_eq_bind, Option.some_bind] at h
    cases hre : rstate.entries[leaf]? with
    | none => rw [hre] at h; simp at h
    | some rsentry =>
      rw [hre] at h
      simp only [Option.bind_eq_bind, Option.some_bind] at h
      by_cases hch : rsentry.child_indices.isEmpty = true
      case neg =>
        have hb : (!rsentry.child_indices.isEmpty) = true := by
          simp only [Bool.not_eq_true']
          simpa using hch
        rw [hb] at h
        simp at h
      case pos =>
        have hb : (!rsentry.child_indices.isEmpty) = false := by simp [hch]
        rw [hb] at h
        simp only [Bool.false_eq_true, if_false] at h
        have hrsinv : finishedInv rstate.entries = true := by
          unfold EngineState.GetRequestState at hrs
          cases hf : estate.request_states.find? (fun p => p.1 == req.id) with
          | none => rw [hf] at hrs; simp at hrs
          | some pr =>
            rw [hf] at hrs
            simp only [Option.map_some'] at hrs
            have hmem := List.mem_of_find?_eq_some hf
            have hall := (List.all_eq_true.mp hinv) pr hmem
            cases hrs
            exact hall
        have hchn : rsentry.child_indices = [] := by
          simpa [List.isEmpty_iff] using hch
        have hacf : allChildrenFinished rstate.entries rsentry = true := by
          unfold allChildrenFinished
          rw [hchn]
          rfl
        have hinv0 : finishedInv
            (rstate.entries.set leaf
              { rsentry with status := RequestStateStatus.kFinished }) = true :=
          finishedInv_set_finished rstate.entries leaf rsentry hacf hrsinv
        have hinv2 := climbFinished_inv estate nm
          (rstate.entries.set leaf
            { rsentry with status := RequestStateStatus.kFinished }).length
          (rstate.entries.set leaf
            { rsentry with status := RequestStateStatus.kFinished })
          rsentry.parent_idx hinv0
        have hset : engineFinishedInv
            (estate.SetRequestState req.id
              { rstate with entries :=
                (ClimbFinished estate nm
                  (rstate.entries.set leaf
                    { rsentry with status := RequestStateStatus.kFinished }).length
                  (rstate.entries.set leaf
                    { rsentry with status := RequestStateStatus.kFinished })
                  rsentry.parent_idx).1 }) = true :=
          engineFinishedInv_set estate req.id _ hinv hinv2
        by_cases hroot : ((ClimbFinished estate nm
            (rstate.entries.set leaf
              { rsentry with status := RequestStateStatus.kFinished }).length
            (rstate.entries.set leaf
              { rsentry with status := RequestStateStatus.kFinished })
            rsentry.parent_idx).2.1 == -1) = true
        · rw [if_pos hroot] at h
          by_cases hcont : ((estate.SetRequestState req.id
              { rstate with entries :=
                (ClimbFinished estate nm
                  (rstate.entries.set leaf
                    { rsentry with status := RequestStateStatus.kFinished }).length
                  (rstate.entries.set leaf
                    { rsentry with status := RequestStateStatus.kFinished })
                  rsentry.parent_idx).1 }).running_queue.contains req) = true
          · have hbc : (!(estate.SetRequestState req.id
                { rstate with entries :=
                  (ClimbFinished estate nm
                    (rstate.entries.set leaf
                      { rsentry with status := RequestStateStatus.kFinished }).length
                    (rstate.entries.set leaf
                      { rsentry with status := RequestStateStatus.kFinished })
                    rsentry.parent_idx).1 }).running_queue.contains req) = false := by
              rw [hcont]
              rfl
            rw [hbc] at h
            simp only [Bool.false_eq_true, if_false, Option.some.injEq] at h
            rw [← h]
            exact engineFinishedInv_erase _ _ hset
          · have hbc : (!(estate.SetRequestState req.id
                { rstate with entries :=
                  (ClimbFinished estate nm
                    (rstate.entries.set leaf
                      { rsentry with status := RequestStateStatus.kFinished }).length
                    (rstate.entries.set leaf
                      { rsentry with status := RequestStateStatus.kFinished })
                    rsentry.parent_idx).1 }).running_queue.contains req) = true := by
              simp only [Bool.not_eq_true']
              simpa using hcont
            rw [hbc] at h
            simp at h
        · have hbr : ((ClimbFinished estate nm
              (rstate.entries.set leaf
                { rsentry with status := RequestStateStatus.kFinished }).length
              (rstate.entries.set leaf
                { rsentry with status := RequestStateStatus.kFinished })
              rsentry.parent_idx).2.1 == -1) = false := by
            simpa using hroot
          rw [hbr] at h
          simp only [Bool.false_eq_true, if_false, Option.some.injEq] at h
          rw [← h]
          exact hset

theorem processFinished_inv_fold (nm : Nat) (now : Int) :
    ∀ (finished : List (Request × Nat)) (estate : EngineState)
      (out : EngineState × List Effect × List RequestStreamOutput),
      engineFinishedInv estate = true →
      ProcessFinishedRequestStateEntries nm now estate finished = some out →
      engineFinishedInv out.1 = true
  | [], estate, out, hinv, h => by
    simp only [ProcessFinishedRequestStateEntries, Option.some.injEq] at h
    rw [← h]
    exact hinv
  | pr :: rest, estate, out, hinv, h => by
    unfold ProcessFinishedRequestStateEntries at h
    cases hone : ProcessFinishedOne nm now estate pr.1 pr.2 with
    | none => rw [hone] at h; simp at h
    | some s =>
      rw [hone] at h
      simp only [Option.bind_eq_bind, Option.some_bind] at h
      cases hrest : ProcessFinishedRequestStateEntries nm now s.1 rest with
      | none => rw [hrest] at h; simp at h
      | some r =>
        rw [hrest] at h
        simp only [Option.bind_eq_bind, Option.some_bind, Option.some.injEq] at h
        have hs := processFinishedOne_inv nm now estate pr.1 pr.2 s hinv hone
        have hr := processFinished_inv_fold nm now rest s.1 r hs hrest
        rw [← h]
        exact hr

/-- C1: finish propagation preserves the children-before-parent invariant —
after processing any batch of newly-finished leaves, every Finished entry of
every request state still has all its children Finished (so an ancestor is
marked Finished only after all of its children are) — and the climb stops at
any parent that still has a non-Finished child, leaving the entries, the
climb position and the effect trace unchanged. -/
theorem finish_propagation_children_before_parent (nm : Nat) (now : Int)
    (estate : EngineState) (finished : List (Request × Nat))
    (out : EngineState × List Effect × List RequestStreamOutput)
    (hinv : engineFinishedInv estate = true)
    (hrun : ProcessFinishedRequestStateEntries nm now estate finished =
      some out) :
    engineFinishedInv out.1 = true ∧
    ∀ (fuel : Nat) (entries : List RequestStateEntry) (p : Int)
      (pe : RequestStateEntry), 0 ≤ p → entries[p.toNat]? = some pe →
      allChildrenFinished entries pe = false →
      ClimbFinished estate nm (fuel + 1) entries p = (entries, p, []) := by
  refine ⟨processFinished_inv_fold nm now finished estate out hinv hrun, ?_⟩
  intro fuel entries p pe hp hpe hacf
  unfold ClimbFinished
  rw [if_neg (by omega : ¬p < 0), hpe]
  dsimp only
  rw [hacf]
  rfl

/-- Witness for C1: finishing one child of a two-child tree keeps the
invariant; the climb stops at the root since the sibling is unfinished. -/
theorem finish_propagation_children_before_parent_witness :
    ∃ out, ProcessFinishedRequestStateEntries 1 3 fixES3 [(fixReqA, 1)] =
        some out ∧ engineFinishedInv out.1 = true := by
  cases hres : ProcessFinishedRequestStateEntries 1 3 fixES3 [(fixReqA, 1)] with
  | none => exact absurd hres (by decide)
  | some out =>
    exact ⟨out, rfl,
      (finish_propagation_children_before_parent 1 3 fixES3 [(fixReqA, 1)] out
        (by decide) hres).1⟩

/-- C9: a step in which a single-branch request (n = 1) produces new tokens
and no branch finishes emits exactly one delta event with one-element branch
arrays carrying the new token ids and no finish reason, leaves the running
queue unchanged, and leaves the dirty flag false. -/
theorem postprocess_delta_only_step (num_models : Nat) (now : Int)
    (estate : EngineState) (req : Request) (rstate : RequestState)
    (getDelta : RequestStateEntry → DeltaRequestReturn) (d : DeltaRequestReturn)
    (hn : req.generation_cfg.n = 1)
    (hrs : estate.GetRequestState req = some rstate)
    (hne : rstate.entries ≠ [])
    (hgd : ∀ e, getDelta e = d)
    (hfin : d.finish_reason = none)
    (htok : d.delta_token_ids ≠ [])
    (hdirty : estate.running_rsentries_changed = false) :
    ∃ (st : EngineState) (effs : List Effect),
      ActionStepPostProcess [req] estate num_models getDelta now =
        some (st, effs,
          [RequestStreamOutput.delta req.id [d.delta_token_ids]
            (if req.generation_cfg.logprobs > 0 then
              some [d.delta_logprob_json_strs] else none)
            [none] [d.extra_prefix_string]],
          true) ∧
      st.running_queue = estate.running_queue ∧
      st.running_rsentries_changed = false := by
  have hA : AccumPrefillMetrics [req] estate =
      some (estate.SetRequestState req.id (AccumPrefillTokens rstate)) := by
    unfold AccumPrefillMetrics
    rw [hrs]
    rfl
  have hg1 : (estate.SetRequestState req.id
      (AccumPrefillTokens rstate)).GetRequestState req =
      some (AccumPrefillTokens rstate) := by
    rw [getRequestState_setRequestState]
    simp [hrs]
  have hB : UpdatePrefixCache [req]
      (estate.SetRequestState req.id (AccumPrefillTokens rstate)) =
      some ((estate.SetRequestState req.id
          (AccumPrefillTokens rstate)).SetRequestState req.id
            (UpdatePrefixCacheRState (AccumPrefillTokens rstate)).1,
        (UpdatePrefixCacheRState (AccumPrefillTokens rstate)).2 ++ []) := by
    unfold UpdatePrefixCache
    rw [hg1]
    rfl
  have hg2 : ((estate.SetRequestState req.id
      (AccumPrefillTokens rstate)).SetRequestState req.id
        (UpdatePrefixCacheRState (AccumPrefillTokens rstate)).1).GetRequestState
        req =
      some (UpdatePrefixCacheRState (AccumPrefillTokens rstate)).1 := by
    rw [getRequestState_setRequestState]
    simp [hg1]
  obtain ⟨e0, t0, he0⟩ : ∃ e0 t0, rstate.entries = e0 :: t0 := by
    cases hcase : rstate.entries with
    | nil => exact absurd hcase hne
    | cons a t => exact ⟨a, t, rfl⟩
  have hrs2e : (UpdatePrefixCacheRState
      (AccumPrefillTokens rstate)).1.entries[0]? =
      some (UpdatePrefixCacheEntry e0).1 := by
    show ((AccumPrefillTokens rstate).entries.map
      (fun e => (UpdatePrefixCacheEntry e).1))[0]? = _
    have hteq : (AccumPrefillTokens rstate).entries = rstate.entries := rfl
    rw [hteq, he0]
    simp
  have hC : CollectRequestDeltas getDelta
      ((estate.SetRequestState req.id
        (AccumPrefillTokens rstate)).SetRequestState req.id
          (UpdatePrefixCacheRState (AccumPrefillTokens rstate)).1) req =
      some ([MakeDeltaOutput req [d]], []) := by
    unfold CollectRequestDeltas
    rw [hg2]
    simp only [Option.bind_eq_bind, Option.some_bind]
    rw [hn]
    have hcd : CollectDeltas getDelta
        (UpdatePrefixCacheRState (AccumPrefillTokens rstate)).1.entries 1 =
        some [d] := by
      unfold CollectDeltas CollectDeltasAux
      have hr1 : List.range 1 = [0] := rfl
      rw [hr1]
      show (do
        let e ← (UpdatePrefixCacheRState
          (AccumPrefillTokens rstate)).1.entries[BranchEntryIndex 1 0]?
        let ds ← CollectDeltasAux getDelta
          (UpdatePrefixCacheRState (AccumPrefillTokens rstate)).1.entries 1 []
        some (getDelta e :: ds)) = some [d]
      have hb0 : BranchEntryIndex 1 0 = 0 := rfl
      rw [hb0, hrs2e]
      simp only [Option.bind_eq_bind, Option.some_bind, CollectDeltasAux]
      rw [hgd]
    rw [hcd]
    simp only [Option.bind_eq_bind, Option.some_bind]
    have hinv : DeltaInvokesCallback d = true := by
      unfold DeltaInvokesCallback
      have : d.delta_token_ids.isEmpty = false := by
        simpa [List.isEmpty_iff] using htok
      simp [this]
    simp only [List.any_cons, List.any_nil, hinv, Bool.true_or, Bool.or_false,
      Bool.or_true, if_true]
    simp only [Option.some.injEq, Prod.mk.injEq]
    refine ⟨trivial, ?_⟩
    rw [List.filterMap_eq_nil_iff]
    intro pr hpr
    have hz : (List.range 1).zip [d] = [(0, d)] := rfl
    rw [hz] at hpr
    simp only [List.mem_singleton] at hpr
    rw [hpr]
    simp [hfin]
  refine ⟨(estate.SetRequestState req.id
        (AccumPrefillTokens rstate)).SetRequestState req.id
          (UpdatePrefixCacheRState (AccumPrefillTokens rstate)).1,
      ((UpdatePrefixCacheRState (AccumPrefillTokens rstate)).2 ++ []) ++ [],
      ?_, ?_, ?_⟩
  · unfold ActionStepPostProcess
    rw [hA]
    simp only [Option.bind_eq_bind, Option.some_bind]
    rw [hB]
    simp only [Option.bind_eq_bind, Option.some_bind]
    have hCA : CollectAllDeltas getDelta
        ((estate.SetRequestState req.id
          (AccumPrefillTokens rstate)).SetRequestState req.id
            (UpdatePrefixCacheRState (AccumPrefillTokens rstate)).1) [req] =
        some ([MakeDeltaOutput req [d]] ++ [], [] ++ []) := by
      unfold CollectAllDeltas
      rw [hC]
      rfl
    rw [hCA]
    simp only [Option.bind_eq_bind, Option.some_bind]
    have hPF : ProcessFinishedRequestStateEntries num_models now
        ((estate.SetRequestState req.id
          (AccumPrefillTokens rstate)).SetRequestState req.id
            (UpdatePrefixCacheRState (AccumPrefillTokens rstate)).1)
        ([] ++ []) =
        some ((estate.SetRequestState req.id
          (AccumPrefillTokens rstate)).SetRequestState req.id
            (UpdatePrefixCacheRState (AccumPrefillTokens rstate)).1, [], []) := rfl
    rw [hPF]
    simp only [Option.bind_eq_bind, Option.some_bind]
    simp [MakeDeltaOutput, hfin]
  · rfl
  · exact hdirty

/-- Witness for C9: a concrete one-entry request producing tokens 41, 42. -/
theorem postprocess_delta_only_step_witness :
    ∃ (st : EngineState) (effs : List Effect),
      ActionStepPostProcess [fixReqC] fixESC 1
          (fun _ => ⟨[41, 42], [], none, ""⟩) 7 =
        some (st, effs,
          [RequestStreamOutput.delta fixReqC.id [[41, 42]]
            (if fixReqC.generation_cfg.logprobs > 0 then
              some [([] : List String)] else none)
            [none] [""]],
          true) ∧
      st.running_queue = fixESC.running_queue ∧
      st.running_rsentries_changed = false :=
  postprocess_delta_only_step 1 7 fixESC fixReqC fixRSC
    (fun _ => ⟨[41, 42], [], none, ""⟩) ⟨[41, 42], [], none, ""⟩
    (by decide) (by decide) (by decide) (fun _ => rfl) rfl (by decide) rfl

end MlcServe
